import Mathlib

/-!
Shallow embedding of the SIV (Stable Index Vector) container from siv.go.

The Go struct `SIV[T]` holds three parallel slices:

* `data    []T`        — the dense sequence of live items;
* `indices []int`      — the indirection table, reference id → storage position;
* `meta    []metadata` — per-position `{rid, vid}` records; `meta` is never
  truncated, so its tail beyond `len(data)` records the freed slots.

Go `int` values stored inside the container are always non-negative (they are
list positions and generation counters that are only ever incremented), so the
state uses `Nat`.  A `Handle` keeps `Int` fields because callers may supply
arbitrary handles and `findID` explicitly tests `h.rid < 0`.

Go slice indexing panics when the index is out of range; an operation that would
panic returns `none` here, and `some` carries the Go return value together with
the state of the receiver after the call (the receiver is unchanged on the error
paths).  Generation counters are modelled as unbounded naturals, matching the
stated assumption that they never wrap.
-/

namespace Siv

/-- Error values `ErrInvalid` and `ErrExpired` from siv.go. -/
inductive SivError where
  | invalid
  | expired
deriving DecidableEq, Repr

deriving instance DecidableEq for Except

/-- The Go struct `metadata { rid int; vid int }`. -/
structure Metadata where
  rid : Nat
  vid : Nat
deriving DecidableEq, Repr

instance : Inhabited Metadata := ⟨⟨0, 0⟩⟩

/-- The Go type `Handle[T] = metadata`: a `(reference id, generation)` pair.
Fields are `Int` because `findID` checks `h.rid < 0` on caller input. -/
structure Handle where
  rid : Int
  vid : Int
deriving DecidableEq, Repr

/-- The Go struct `SIV[T]` with its three parallel slices. -/
structure SIV (T : Type) where
  data : List T
  indices : List Nat
  meta : List Metadata
deriving DecidableEq, Repr

variable {T : Type}

/-- The zero value `SIV[T]{}`: all three slices empty. -/
def empty : SIV T := ⟨[], [], []⟩

/-- `WithCapacity` pre-allocates backing storage of the given capacity but
creates the same empty logical state; capacity is not part of the model. -/
def WithCapacity (T : Type) (_cap : Nat) : SIV T := ⟨[], [], []⟩

/-- `findID` from siv.go: reject `rid` out of the indirection-table bounds with
`ErrInvalid`, then compare the generation stored at `meta[indices[rid]]` with
the handle generation, rejecting a mismatch with `ErrExpired`.  The access
`s.meta[id]` panics in Go when `id` is outside `meta` (result `none`). -/
def findID (s : SIV T) (h : Handle) : Option (Except SivError Nat) :=
  if h.rid < 0 ∨ (s.indices.length : Int) ≤ h.rid then
    some (Except.error SivError.invalid)
  else
    match s.indices[h.rid.toNat]? with
    | none => none
    | some id =>
      match s.meta[id]? with
      | none => none
      | some m =>
        if (m.vid : Int) ≠ h.vid then some (Except.error SivError.expired)
        else some (Except.ok id)

/-- `Get` from siv.go: resolve the handle, then read `s.data[id]` (a Go panic,
i.e. `none`, when `id` is outside the live region).  `Get` never mutates. -/
def Get (s : SIV T) (h : Handle) : Option (Except SivError T) :=
  match findID s h with
  | none => none
  | some (Except.error e) => some (Except.error e)
  | some (Except.ok id) =>
    match s.data[id]? with
    | none => none
    | some v => some (Except.ok v)

/-- `Set` from siv.go: resolve the handle, then
`old, s.data[id] = s.data[id], v`, returning the previous value and the
updated container.  On an error the container is returned unchanged. -/
def Set (s : SIV T) (h : Handle) (v : T) : Option (Except SivError T × SIV T) :=
  match findID s h with
  | none => none
  | some (Except.error e) => some (Except.error e, s)
  | some (Except.ok id) =>
    match s.data[id]? with
    | none => none
    | some old => some (Except.ok old, { s with data := s.data.set id v })

/-- `Len` from siv.go: `len(s.data)`. -/
def Len (s : SIV T) : Nat := s.data.length

/-- `Put` from siv.go.  If `len(meta) > len(data)` a freed slot sits at
position `id = len(data)`: append the item, bump that slot's generation and
return its metadata as the handle.  Otherwise append the item, a fresh
indirection entry and fresh metadata `{id, 0}`. -/
def Put (s : SIV T) (item : T) : Handle × SIV T :=
  let id := s.data.length
  if s.data.length < s.meta.length then
    let m := s.meta.getD id default
    (⟨(m.rid : Int), ((m.vid + 1 : Nat) : Int)⟩,
     { s with data := s.data ++ [item], meta := s.meta.set id ⟨m.rid, m.vid + 1⟩ })
  else
    (⟨(id : Int), 0⟩,
     { data := s.data ++ [item],
       indices := s.indices ++ [id],
       meta := s.meta ++ [⟨id, 0⟩] })

/-- `Remove` from siv.go: resolve the handle to `id1`, read the removed item at
`id1`, swap positions `id1` and `len(data)-1` in `data` and `meta` (and the two
indirection entries) when they differ, bump the generation of the vacated last
position, and shrink `data` by one.  Each Go slice access that can panic is a
`none` case. -/
def Remove (s : SIV T) (h : Handle) : Option (Except SivError T × SIV T) :=
  match findID s h with
  | none => none
  | some (Except.error e) => some (Except.error e, s)
  | some (Except.ok id1) =>
    match s.data[id1]? with
    | none => none
    | some item =>
      match s.meta[s.data.length - 1]? with
      | none => none
      | some m2 =>
        if id1 = s.data.length - 1 then
          -- no swap; `s.meta[id2].vid++` re-reads position `id2`
          match s.meta[s.data.length - 1]? with
          | none => none
          | some mv =>
            some (Except.ok item,
                  { data := s.data.dropLast,
                    indices := s.indices,
                    meta := s.meta.set (s.data.length - 1) ⟨mv.rid, mv.vid + 1⟩ })
        else
          match s.data[s.data.length - 1]?, s.meta[id1]?,
                s.indices[h.rid.toNat]?, s.indices[m2.rid]? with
          | some d2, some m1, some i1, some i2 =>
            -- after the three swaps, `s.meta[id2].vid++` reads the swapped list
            match ((s.meta.set id1 m2).set (s.data.length - 1) m1)[s.data.length - 1]? with
            | none => none
            | some mv =>
              some (Except.ok item,
                    { data := ((s.data.set id1 d2).set (s.data.length - 1) item).dropLast,
                      indices := (s.indices.set h.rid.toNat i2).set m2.rid i1,
                      meta := ((s.meta.set id1 m2).set (s.data.length - 1) m1).set
                        (s.data.length - 1) ⟨mv.rid, mv.vid + 1⟩ })
          | _, _, _, _ => none

/-- `Pop` from siv.go: panic (`none`) when empty, otherwise remove via the
handle read from `s.meta[len(s.data)-1]`, discarding the error (`it` keeps
the zero value, here `default`, when `Remove` errors). -/
def Pop [Inhabited T] (s : SIV T) : Option (T × SIV T) :=
  if s.data.length = 0 then none
  else
    match s.meta[s.data.length - 1]? with
    | none => none
    | some m =>
      match Remove s ⟨(m.rid : Int), (m.vid : Int)⟩ with
      | none => none
      | some (Except.ok item, s') => some (item, s')
      | some (Except.error _, s') => some (default, s')

/-- `Iter` from siv.go yields the items of `s.data` in storage order. -/
def Iter (s : SIV T) : List T := s.data

/-- `Iter2` from siv.go yields `(Handle(s.meta[i]), s.data[i])` for each index
`i` of `s.data`; the access `s.meta[i]` panics (`none`) when `meta` is shorter
than `data`. -/
def Iter2 (s : SIV T) : Option (List (Handle × T)) :=
  (List.range s.data.length).mapM fun i =>
    match s.meta[i]?, s.data[i]? with
    | some m, some v => some (⟨(m.rid : Int), (m.vid : Int)⟩, v)
    | _, _ => none

/-- A call a client can make that may rewrite the container state.  `Get`,
`Len`, `Cap` and the two iterators read the receiver without writing to it,
so they leave the state unchanged by construction and need no entry here. -/
inductive Op (T : Type) where
  | put : T → Op T
  | set : Handle → T → Op T
  | remove : Handle → Op T
  | pop : Op T

/-- Run one operation and keep the state it leaves behind.  The error paths
return the receiver unchanged; a Go panic (`none`) aborts the program, so
letting the model continue from the unchanged receiver only adds states, it
never loses one the program could reach. -/
def applyOp [Inhabited T] (s : SIV T) : Op T → SIV T
  | Op.put x => (Put s x).2
  | Op.set h v =>
    match Set s h v with
    | some (_, s') => s'
    | none => s
  | Op.remove h =>
    match Remove s h with
    | some (_, s') => s'
    | none => s
  | Op.pop =>
    match Pop s with
    | some (_, s') => s'
    | none => s

/-- Run a sequence of operations from a starting state. -/
def applyAll [Inhabited T] (s : SIV T) (ops : List (Op T)) : SIV T :=
  ops.foldl applyOp s

/-- Handles handed out by the `Put` calls of a run, in order. -/
def issuedFrom [Inhabited T] (s : SIV T) : List (Op T) → List Handle
  | [] => []
  | op :: ops =>
    (match op with
     | Op.put x => [(Put s x).1]
     | _ => []) ++ issuedFrom (applyOp s op) ops

/-- State an operation on an `SIV Int` leaves behind, or the empty container
when the operation panicked. -/
def stOf (o : Option (Except SivError Int × SIV Int)) : SIV Int :=
  match o with
  | some (_, s) => s
  | none => Siv.empty

/-- State reached by `Put 1` followed by removing the returned handle:
`data = []`, `indices = [0]`, `meta = [{rid 0, vid 1}]`. -/
def cexState : SIV Int :=
  stOf (Remove (Put (Siv.empty : SIV Int) 1).2 (Put (Siv.empty : SIV Int) 1).1)

/-- Step 1 of the spec scenario: insert 10 into the empty container. -/
def c9r1 : Handle × SIV Int := Put (Siv.empty : SIV Int) 10

/-- Step 2 of the spec scenario: insert 20. -/
def c9r2 : Handle × SIV Int := Put c9r1.2 20

/-- Step 3 of the spec scenario: insert 30. -/
def c9r3 : Handle × SIV Int := Put c9r2.2 30

/-- Step 4 of the spec scenario: remove via the second handle. -/
def c9rm2 : Option (Except SivError Int × SIV Int) := Remove c9r3.2 c9r2.1

/-- Step 5 of the spec scenario: insert 40. -/
def c9r4 : Handle × SIV Int := Put (stOf c9rm2) 40

/-- Step 7 of the spec scenario: remove via the first handle. -/
def c9rm1 : Option (Except SivError Int × SIV Int) := Remove c9r4.2 c9r1.1

/-- Metadata stored at position `p` (default `⟨0,0⟩` out of range). -/
def SIV.metaAt (s : SIV T) (p : Nat) : Metadata := s.meta.getD p default

/-- Indirection entry of reference id `r` (default `0` out of range). -/
def SIV.idxAt (s : SIV T) (r : Nat) : Nat := s.indices.getD r 0

/-- Current generation bound to reference id `r`: the generation stored at the
slot the indirection table maps `r` to. -/
def SIV.gen (s : SIV T) (r : Nat) : Nat := (s.metaAt (s.idxAt r)).vid

/-- Well-formedness of a container state: the invariants of the data model.
`ilen`/`dlen` relate the three lengths; `idx_lt`/`rid_lt` keep stored indices
in range; `idx_meta`/`meta_idx` say the indirection table and the stored
reference ids are mutually inverse on every slot, freed slots included; and
`parity` says a slot's generation is odd exactly when the slot is freed
(position at or beyond the live region). -/
structure WF (s : SIV T) : Prop where
  ilen : s.indices.length = s.meta.length
  dlen : s.data.length ≤ s.meta.length
  idx_lt : ∀ r, r < s.indices.length → s.idxAt r < s.meta.length
  rid_lt : ∀ p, p < s.meta.length → (s.metaAt p).rid < s.indices.length
  idx_meta : ∀ p, p < s.meta.length → s.idxAt (s.metaAt p).rid = p
  meta_idx : ∀ r, r < s.indices.length → (s.metaAt (s.idxAt r)).rid = r
  parity : ∀ p, p < s.meta.length → ((s.metaAt p).vid % 2 = 1 ↔ s.data.length ≤ p)

/-! ### List toolkit -/

theorem getD_set_self {α : Type} (l : List α) (i : Nat) (a d : α) (h : i < l.length) :
    (l.set i a).getD i d = a := by
  simp [List.getD_eq_getElem?_getD, List.getElem?_set, h]

theorem getD_set_ne {α : Type} (l : List α) {i j : Nat} (a d : α) (h : i ≠ j) :
    (l.set i a).getD j d = l.getD j d := by
  simp [List.getD_eq_getElem?_getD, List.getElem?_set, h]

theorem getD_append_lt {α : Type} (l l' : List α) (i : Nat) (d : α) (h : i < l.length) :
    (l ++ l').getD i d = l.getD i d := by
  simp [List.getD_eq_getElem?_getD, List.getElem?_append, h]

theorem getD_concat_self {α : Type} (l : List α) (a d : α) :
    (l ++ [a]).getD l.length d = a := by
  simp [List.getD_eq_getElem?_getD]

theorem getElem?_eq_getD {α : Type} (l : List α) (i : Nat) (d : α) (h : i < l.length) :
    l[i]? = some (l.getD i d) := by
  simp [List.getD_eq_getElem?_getD, List.getElem?_eq_getElem h]

theorem getD_of_getElem? {α : Type} {l : List α} {i : Nat} {a : α} (d : α)
    (h : l[i]? = some a) : l.getD i d = a := by
  simp [List.getD_eq_getElem?_getD, h]

theorem lt_of_getElem?_eq_some {α : Type} {l : List α} {i : Nat} {a : α}
    (h : l[i]? = some a) : i < l.length :=
  (List.getElem?_eq_some.mp h).1

/-! ### findID -/

/-- Closed form of `findID` on a well-formed state: the two bound checks of
the Go code, then the generation comparison against `gen`, never a panic. -/
theorem findID_wf (s : SIV T) (hwf : WF s) (h : Handle) :
    findID s h =
      if h.rid < 0 ∨ (s.indices.length : Int) ≤ h.rid then
        some (Except.error SivError.invalid)
      else if ((s.gen h.rid.toNat : Nat) : Int) ≠ h.vid then
        some (Except.error SivError.expired)
      else
        some (Except.ok (s.idxAt h.rid.toNat)) := by
  unfold findID
  by_cases hb : h.rid < 0 ∨ (s.indices.length : Int) ≤ h.rid
  · simp [hb]
  · have hrn : h.rid.toNat < s.indices.length := by omega
    have h1 : s.indices[h.rid.toNat]? = some (s.indices.getD h.rid.toNat 0) :=
      getElem?_eq_getD _ _ 0 hrn
    have h2 : s.meta[s.indices.getD h.rid.toNat 0]? =
        some (s.meta.getD (s.indices.getD h.rid.toNat 0) default) :=
      getElem?_eq_getD _ _ default (hwf.idx_lt _ hrn)
    simp only [if_neg hb, h1, h2, SIV.idxAt, SIV.metaAt, SIV.gen]

/-- Inversion of a successful `findID`: the handle's reference id is a
position of the indirection table, the result is the indirection entry there,
and that entry's slot carries the handle's generation. -/
theorem findID_ok_facts (s : SIV T) (h : Handle) (id : Nat)
    (hfind : findID s h = some (Except.ok id)) :
    0 ≤ h.rid ∧ h.rid.toNat < s.indices.length ∧ s.idxAt h.rid.toNat = id ∧
    id < s.meta.length ∧ ((s.metaAt id).vid : Int) = h.vid := by
  unfold findID at hfind
  split at hfind
  · exact absurd hfind (by simp)
  · rename_i hb
    split at hfind
    · exact absurd hfind (by simp)
    · rename_i id' hidx
      split at hfind
      · exact absurd hfind (by simp)
      · rename_i m hm
        split at hfind
        · exact absurd hfind (by simp)
        · rename_i hv
          have hid : id' = id := by simpa using hfind
          subst hid
          refine ⟨by omega, lt_of_getElem?_eq_some hidx,
            getD_of_getElem? 0 hidx, lt_of_getElem?_eq_some hm, ?_⟩
          rw [SIV.metaAt, getD_of_getElem? default hm]
          simpa using hv

/-- A handle with an even generation that `findID` accepts resolves to a live
position: on a well-formed state the freed slots all carry odd generations. -/
theorem findID_ok_live (s : SIV T) (hwf : WF s) (h : Handle) (id : Nat)
    (hfind : findID s h = some (Except.ok id)) (heven : h.vid % 2 = 0) :
    id < s.data.length := by
  obtain ⟨h0, hrn, hidx, hidm, hvid⟩ := findID_ok_facts s h id hfind
  by_contra hge
  have hodd : (s.metaAt id).vid % 2 = 1 := (hwf.parity id hidm).mpr (by omega)
  omega

/-! ### Put -/

theorem getD_set {α : Type} (l : List α) (i j : Nat) (a d : α) :
    (l.set i a).getD j d = if i = j ∧ i < l.length then a else l.getD j d := by
  simp only [List.getD_eq_getElem?_getD, List.getElem?_set]
  by_cases h1 : i = j
  · subst h1
    by_cases h2 : i < l.length
    · simp [h2]
    · simp [h2, List.getElem?_eq_none (le_of_not_lt h2)]
  · simp [h1]

theorem getD_concat {α : Type} (l : List α) (a d : α) (p : Nat) :
    (l ++ [a]).getD p d = if p = l.length then a else l.getD p d := by
  simp only [List.getD_eq_getElem?_getD, List.getElem?_append]
  rcases Nat.lt_trichotomy p l.length with h1 | h1 | h1
  · simp [h1, Nat.ne_of_lt h1]
  · subst h1
    simp
  · have h2 : ¬ p < l.length := by omega
    have h3 : ([a] : List α)[p - l.length]? = none :=
      List.getElem?_eq_none (by simp; omega)
    have h4 : l[p]? = none := List.getElem?_eq_none (by omega)
    simp [h2, Nat.ne_of_gt h1, h3, h4]

/-- Closed form of the reuse branch of `Put`. -/
theorem Put_reuse (s : SIV T) (x : T) (hlt : s.data.length < s.meta.length) :
    Put s x =
      (⟨((s.metaAt s.data.length).rid : Int), (((s.metaAt s.data.length).vid + 1 : Nat) : Int)⟩,
       { s with data := s.data ++ [x],
                meta := s.meta.set s.data.length
                  ⟨(s.metaAt s.data.length).rid, (s.metaAt s.data.length).vid + 1⟩ }) := by
  simp [Put, hlt, SIV.metaAt]

/-- Closed form of the fresh-slot branch of `Put`. -/
theorem Put_fresh (s : SIV T) (x : T) (hge : ¬ s.data.length < s.meta.length) :
    Put s x =
      (⟨(s.data.length : Int), 0⟩,
       { data := s.data ++ [x],
         indices := s.indices ++ [s.data.length],
         meta := s.meta ++ [⟨s.data.length, 0⟩] }) := by
  simp [Put, hge]

theorem Put_reuse_state (s : SIV T) (x : T) (hlt : s.data.length < s.meta.length) :
    (Put s x).2.data.length = s.data.length + 1 ∧
    (Put s x).2.indices = s.indices ∧
    (Put s x).2.meta.length = s.meta.length ∧
    (∀ p, (Put s x).2.metaAt p =
      if p = s.data.length then
        ⟨(s.metaAt s.data.length).rid, (s.metaAt s.data.length).vid + 1⟩
      else s.metaAt p) := by
  rw [Put_reuse s x hlt]
  refine ⟨by simp, rfl, by simp, fun p => ?_⟩
  simp only [SIV.metaAt, getD_set]
  by_cases hp : p = s.data.length
  · subst hp
    rw [if_pos ⟨rfl, hlt⟩, if_pos rfl]
  · rw [if_neg (fun hc => hp hc.1.symm), if_neg hp]

theorem Put_fresh_state (s : SIV T) (x : T) (hge : ¬ s.data.length < s.meta.length) :
    (Put s x).2.data.length = s.data.length + 1 ∧
    (Put s x).2.indices.length = s.indices.length + 1 ∧
    (Put s x).2.meta.length = s.meta.length + 1 ∧
    (∀ p, (Put s x).2.metaAt p =
      if p = s.meta.length then ⟨s.data.length, 0⟩ else s.metaAt p) ∧
    (∀ r, (Put s x).2.idxAt r =
      if r = s.indices.length then s.data.length else s.idxAt r) := by
  rw [Put_fresh s x hge]
  refine ⟨by simp, by simp, by simp, fun p => ?_, fun r => ?_⟩
  · simp only [SIV.metaAt, getD_concat]
  · simp only [SIV.idxAt, getD_concat]

theorem WF_put (s : SIV T) (x : T) (hwf : WF s) : WF (Put s x).2 := by
  by_cases hlt : s.data.length < s.meta.length
  · obtain ⟨hd, hi, hm, hmeta⟩ := Put_reuse_state s x hlt
    have hidx : ∀ r, (Put s x).2.idxAt r = s.idxAt r := fun r => by
      simp only [SIV.idxAt, hi]
    have hrid0 : (s.metaAt s.data.length).rid < s.indices.length :=
      hwf.rid_lt _ hlt
    have hback : s.idxAt (s.metaAt s.data.length).rid = s.data.length :=
      hwf.idx_meta _ hlt
    have hodd : (s.metaAt s.data.length).vid % 2 = 1 :=
      (hwf.parity _ hlt).mpr (le_refl _)
    refine ⟨by rw [hm, hi]; exact hwf.ilen, by omega, ?_, ?_, ?_, ?_, ?_⟩
    · intro r hr
      rw [hidx, hm]
      exact hwf.idx_lt r (by rwa [hi] at hr)
    · intro p hp
      rw [hm] at hp
      rw [hmeta, hi]
      by_cases h : p = s.data.length
      · rw [if_pos h]
        exact hrid0
      · rw [if_neg h]
        exact hwf.rid_lt p hp
    · intro p hp
      rw [hm] at hp
      rw [hmeta, hidx]
      by_cases h : p = s.data.length
      · rw [if_pos h, hback, h]
      · rw [if_neg h]
        exact hwf.idx_meta p hp
    · intro r hr
      rw [hi] at hr
      rw [hidx, hmeta]
      by_cases h : s.idxAt r = s.data.length
      · rw [if_pos h]
        have hmr := hwf.meta_idx r hr
        rw [h] at hmr
        exact hmr
      · rw [if_neg h]
        exact hwf.meta_idx r hr
    · intro p hp
      rw [hm] at hp
      rw [hmeta, hd]
      by_cases h : p = s.data.length
      · rw [if_pos h]
        subst h
        dsimp only
        constructor
        · intro hcon
          omega
        · intro hcon
          omega
      · rw [if_neg h]
        have hpar := hwf.parity p hp
        constructor
        · intro ho
          have := hpar.mp ho
          omega
        · intro hle
          exact hpar.mpr (by omega)
  · obtain ⟨hd, hi, hm, hmeta, hidx⟩ := Put_fresh_state s x hlt
    have hlen : s.meta.length = s.data.length := le_antisymm (le_of_not_lt hlt) hwf.dlen
    have hilen : s.indices.length = s.data.length := by rw [hwf.ilen, hlen]
    refine ⟨by omega, by omega, ?_, ?_, ?_, ?_, ?_⟩
    · intro r hr
      rw [hidx, hm]
      by_cases h : r = s.indices.length
      · rw [if_pos h]
        omega
      · rw [if_neg h]
        have hr' : r < s.indices.length := by omega
        have := hwf.idx_lt r hr'
        omega
    · intro p hp
      rw [hmeta, hi]
      by_cases h : p = s.meta.length
      · rw [if_pos h]
        dsimp only
        omega
      · rw [if_neg h]
        have hp' : p < s.meta.length := by rw [hm] at hp; omega
        have := hwf.rid_lt p hp'
        omega
    · intro p hp
      rw [hmeta, hidx]
      by_cases h : p = s.meta.length
      · rw [if_pos h]
        dsimp only
        rw [if_pos (by omega)]
        omega
      · rw [if_neg h]
        have hp' : p < s.meta.length := by rw [hm] at hp; omega
        rw [if_neg (fun hcon => by have := hwf.rid_lt p hp'; omega)]
        exact hwf.idx_meta p hp'
    · intro r hr
      rw [hidx, hmeta]
      by_cases h : r = s.indices.length
      · rw [if_pos h]
        rw [if_pos (by omega)]
        dsimp only
        omega
      · rw [if_neg h]
        have hr' : r < s.indices.length := by rw [hi] at hr; omega
        rw [if_neg (fun hcon => by have := hwf.idx_lt r hr'; omega)]
        exact hwf.meta_idx r hr'
    · intro p hp
      rw [hmeta, hd]
      by_cases h : p = s.meta.length
      · rw [if_pos h]
        subst h
        dsimp only
        constructor
        · intro hcon
          simp at hcon
        · intro hle
          omega
      · rw [if_neg h]
        have hp' : p < s.meta.length := by rw [hm] at hp; omega
        have hpar := hwf.parity p hp'
        constructor
        · intro ho
          have := hpar.mp ho
          omega
        · intro hle
          exact hpar.mpr (by omega)

/-! ### Get and Set -/

theorem Get_ok (s : SIV T) (h : Handle) (id : Nat) (v : T)
    (hfind : findID s h = some (Except.ok id)) (hv : s.data[id]? = some v) :
    Get s h = some (Except.ok v) := by
  simp [Get, hfind, hv]

theorem Get_error (s : SIV T) (h : Handle) (e : SivError)
    (hfind : findID s h = some (Except.error e)) :
    Get s h = some (Except.error e) := by
  simp [Get, hfind]

theorem Get_none (s : SIV T) (h : Handle) (id : Nat)
    (hfind : findID s h = some (Except.ok id)) (hge : s.data.length ≤ id) :
    Get s h = none := by
  simp [Get, hfind, List.getElem?_eq_none hge]

theorem Set_ok (s : SIV T) (h : Handle) (v : T) (id : Nat) (old : T)
    (hfind : findID s h = some (Except.ok id)) (hv : s.data[id]? = some old) :
    Set s h v = some (Except.ok old, { s with data := s.data.set id v }) := by
  simp [Set, hfind, hv]

theorem Set_error (s : SIV T) (h : Handle) (v : T) (e : SivError)
    (hfind : findID s h = some (Except.error e)) :
    Set s h v = some (Except.error e, s) := by
  simp [Set, hfind]

theorem Set_none (s : SIV T) (h : Handle) (v : T) (id : Nat)
    (hfind : findID s h = some (Except.ok id)) (hge : s.data.length ≤ id) :
    Set s h v = none := by
  simp [Set, hfind, List.getElem?_eq_none hge]

theorem Set_ok_inv (s : SIV T) (h : Handle) (v : T) (old : T) (s' : SIV T)
    (hset : Set s h v = some (Except.ok old, s')) :
    ∃ id, findID s h = some (Except.ok id) ∧ s.data[id]? = some old ∧
      s' = { s with data := s.data.set id v } := by
  unfold Set at hset
  split at hset
  · exact absurd hset (by simp)
  · exact absurd hset (by simp)
  · rename_i id hfind
    split at hset
    · exact absurd hset (by simp)
    · rename_i w hw
      refine ⟨id, hfind, ?_, ?_⟩
      · rw [hw]
        simpa using congrArg (fun o => o.map Prod.fst) hset
      · exact (by simpa using congrArg (fun o => o.map Prod.snd) hset : _ = s').symm

theorem WF_set (s : SIV T) (hwf : WF s) (h : Handle) (v : T) (old : T) (s' : SIV T)
    (hset : Set s h v = some (Except.ok old, s')) : WF s' := by
  obtain ⟨id, hfind, hold, rfl⟩ := Set_ok_inv s h v old s' hset
  refine ⟨hwf.ilen, ?_, hwf.idx_lt, hwf.rid_lt, hwf.idx_meta, hwf.meta_idx, ?_⟩
  · simpa using hwf.dlen
  · intro p hp
    simpa using hwf.parity p hp

/-! ### Remove: error paths -/

theorem Remove_error (s : SIV T) (h : Handle) (e : SivError)
    (hfind : findID s h = some (Except.error e)) :
    Remove s h = some (Except.error e, s) := by
  simp [Remove, hfind]

theorem Remove_none (s : SIV T) (h : Handle) (id : Nat)
    (hfind : findID s h = some (Except.ok id)) (hge : s.data.length ≤ id) :
    Remove s h = none := by
  simp [Remove, hfind, List.getElem?_eq_none hge]

/-! ### Remove: success paths -/

theorem getElem?_dropLast {α : Type} (l : List α) (p : Nat) (hp : p < l.length - 1) :
    l.dropLast[p]? = l[p]? := by
  rw [List.dropLast_eq_take, List.getElem?_take, if_pos hp]

/-- Closed form of `Remove` when the resolved position is the last live one:
no swap, the last slot's generation is bumped and the data shrinks. -/
theorem Remove_ok_last (s : SIV T) (h : Handle) (item : T)
    (hfind : findID s h = some (Except.ok (s.data.length - 1)))
    (hitem : s.data[s.data.length - 1]? = some item) :
    Remove s h = some (Except.ok item,
      { data := s.data.dropLast,
        indices := s.indices,
        meta := s.meta.set (s.data.length - 1)
          ⟨(s.metaAt (s.data.length - 1)).rid, (s.metaAt (s.data.length - 1)).vid + 1⟩ }) := by
  obtain ⟨h0, hrl, hidx, hml, hvid⟩ := findID_ok_facts s h _ hfind
  have hm2 : s.meta[s.data.length - 1]? = some (s.metaAt (s.data.length - 1)) :=
    getElem?_eq_getD _ _ default hml
  simp [Remove, hfind, hitem, hm2]

/-- Closed form of `Remove` when the resolved position is not the last live
one: item, metadata and indirection entries of the two positions are swapped,
then the vacated last slot's generation is bumped and the data shrinks. -/
theorem Remove_ok_swap (s : SIV T) (hwf : WF s) (h : Handle) (id1 : Nat) (item d2 : T)
    (hfind : findID s h = some (Except.ok id1))
    (hitem : s.data[id1]? = some item)
    (hd2 : s.data[s.data.length - 1]? = some d2)
    (hne : id1 ≠ s.data.length - 1) :
    Remove s h = some (Except.ok item,
      { data := ((s.data.set id1 d2).set (s.data.length - 1) item).dropLast,
        indices := (s.indices.set h.rid.toNat (s.data.length - 1)).set
          (s.metaAt (s.data.length - 1)).rid id1,
        meta := (s.meta.set id1 (s.metaAt (s.data.length - 1))).set (s.data.length - 1)
          ⟨(s.metaAt id1).rid, (s.metaAt id1).vid + 1⟩ }) := by
  obtain ⟨h0, hrl, hidx, hid1m, hvid⟩ := findID_ok_facts s h _ hfind
  have hlast : s.data.length - 1 < s.data.length := by
    have := lt_of_getElem?_eq_some hitem
    omega
  have hlastm : s.data.length - 1 < s.meta.length := lt_of_le_of_lt (Nat.le_refl _)
    (lt_of_lt_of_le hlast hwf.dlen)
  have hm2 : s.meta[s.data.length - 1]? = some (s.metaAt (s.data.length - 1)) :=
    getElem?_eq_getD _ _ default hlastm
  have hm1 : s.meta[id1]? = some (s.metaAt id1) :=
    getElem?_eq_getD _ _ default hid1m
  have hr2lt : (s.metaAt (s.data.length - 1)).rid < s.indices.length :=
    hwf.rid_lt _ hlastm
  have hi1 : s.indices[h.rid.toNat]? = some id1 := by
    rw [getElem?_eq_getD _ _ 0 hrl]
    exact congrArg some hidx
  have hi2 : s.indices[(s.metaAt (s.data.length - 1)).rid]? = some (s.data.length - 1) := by
    rw [getElem?_eq_getD _ _ 0 hr2lt]
    rw [show s.indices.getD (s.metaAt (s.data.length - 1)).rid 0 =
      s.idxAt (s.metaAt (s.data.length - 1)).rid from rfl]
    rw [hwf.idx_meta _ hlastm]
  have hmv : ((s.meta.set id1 (s.metaAt (s.data.length - 1))).set (s.data.length - 1)
      (s.metaAt id1))[s.data.length - 1]? = some (s.metaAt id1) := by
    rw [getElem?_eq_getD _ _ default (by simp [hlastm]),
      getD_set_self _ _ _ _ (by simp [hlastm])]
  simp only [Remove, hfind, hitem, hm2, hm1, hd2, hi1, hi2, if_neg hne, hmv, List.set_set]

/-- Pointwise description of a successful `Remove` on a well-formed state. -/
theorem Remove_ok_spec (s : SIV T) (hwf : WF s) (h : Handle) (id1 : Nat) (item : T)
    (hfind : findID s h = some (Except.ok id1))
    (hitem : s.data[id1]? = some item) :
    ∃ s', Remove s h = some (Except.ok item, s') ∧
      s'.data.length = s.data.length - 1 ∧
      s'.indices.length = s.indices.length ∧
      s'.meta.length = s.meta.length ∧
      (∀ p, p < s.meta.length → s'.metaAt p =
        if p = s.data.length - 1 then ⟨h.rid.toNat, (s.metaAt id1).vid + 1⟩
        else if p = id1 then s.metaAt (s.data.length - 1)
        else s.metaAt p) ∧
      (∀ r, r < s.indices.length → s'.idxAt r =
        if r = h.rid.toNat then s.data.length - 1
        else if r = (s.metaAt (s.data.length - 1)).rid then id1
        else s.idxAt r) ∧
      (∀ p, p < s.data.length - 1 →
        s'.data[p]? = if p = id1 then s.data[s.data.length - 1]? else s.data[p]?) := by
  obtain ⟨h0, hrl, hidx, hid1m, hvid⟩ := findID_ok_facts s h _ hfind
  have hid1d : id1 < s.data.length := lt_of_getElem?_eq_some hitem
  have hlast : s.data.length - 1 < s.data.length := by omega
  have hlastm : s.data.length - 1 < s.meta.length := lt_of_lt_of_le hlast hwf.dlen
  have hrid1 : (s.metaAt id1).rid = h.rid.toNat := by
    have := hwf.meta_idx _ hrl
    rw [hidx] at this
    exact this
  by_cases hne : id1 = s.data.length - 1
  · subst hne
    have hridD : (s.meta.getD (s.data.length - 1) default).rid = h.rid.toNat := hrid1
    refine ⟨_, Remove_ok_last s h item hfind (by rwa []), ?_, ?_, ?_, ?_, ?_, ?_⟩
    · simp [List.length_dropLast]
    · rfl
    · simp
    · intro p hp
      simp only [SIV.metaAt, getD_set]
      by_cases h1 : p = s.data.length - 1
      · rw [if_pos ⟨h1.symm, hlastm⟩, if_pos h1, hridD]
      · rw [if_neg (fun hc => h1 hc.1.symm), if_neg h1, if_neg h1]
    · intro r hr
      by_cases h1 : r = h.rid.toNat
      · rw [if_pos h1]
        dsimp only [SIV.idxAt]
        rw [h1]
        exact hidx
      · rw [if_neg h1]
        by_cases h2 : r = (s.metaAt (s.data.length - 1)).rid
        · rw [hrid1] at h2
          exact absurd h2 h1
        · rw [if_neg h2]
          rfl
    · intro p hp
      have hpid : ¬ p = s.data.length - 1 := by omega
      rw [if_neg hpid]
      dsimp only
      exact getElem?_dropLast _ _ hp
  · have hd2 : ∃ d2, s.data[s.data.length - 1]? = some d2 :=
      ⟨_, List.getElem?_eq_getElem hlast⟩
    obtain ⟨d2, hd2⟩ := hd2
    have hr2lt : (s.metaAt (s.data.length - 1)).rid < s.indices.length :=
      hwf.rid_lt _ hlastm
    have hidx2 : s.idxAt (s.metaAt (s.data.length - 1)).rid = s.data.length - 1 :=
      hwf.idx_meta _ hlastm
    have hrne : h.rid.toNat ≠ (s.metaAt (s.data.length - 1)).rid := by
      intro hc
      rw [← hc, hidx] at hidx2
      exact hne hidx2
    refine ⟨_, Remove_ok_swap s hwf h id1 item d2 hfind hitem hd2 hne, ?_, ?_, ?_, ?_, ?_, ?_⟩
    · simp [List.length_dropLast]
    · simp
    · simp
    · intro p hp
      have hridD : (s.meta.getD id1 default).rid = h.rid.toNat := hrid1
      simp only [SIV.metaAt, getD_set, List.length_set]
      by_cases h1 : p = s.data.length - 1
      · rw [if_pos ⟨h1.symm, hlastm⟩, if_pos h1, hridD]
      · rw [if_neg (fun hc => h1 hc.1.symm), if_neg h1]
        by_cases h2 : p = id1
        · rw [if_pos ⟨h2.symm, hid1m⟩, if_pos h2]
        · rw [if_neg (fun hc => h2 hc.1.symm), if_neg h2]
    · intro r hr
      simp only [SIV.idxAt, getD_set, List.length_set]
      by_cases h1 : r = (s.metaAt (s.data.length - 1)).rid
      · have hno : ¬ r = h.rid.toNat := fun hc => hrne (hc.symm.trans h1)
        rw [if_pos ⟨h1.symm, hr2lt⟩, if_neg hno, if_pos h1]
      · rw [if_neg (fun hc => h1 hc.1.symm)]
        by_cases h2 : r = h.rid.toNat
        · rw [if_pos ⟨h2.symm, hrl⟩, if_pos h2]
        · rw [if_neg (fun hc => h2 hc.1.symm), if_neg h2, if_neg h1]
    · intro p hp
      dsimp only
      rw [getElem?_dropLast _ _ (by simpa using hp)]
      rw [List.getElem?_set, List.getElem?_set]
      have hplast : ¬ (s.data.length - 1 = p) := by omega
      rw [if_neg hplast]
      by_cases h2 : p = id1
      · rw [if_pos h2.symm, if_pos hid1d, if_pos h2, hd2]
      · rw [if_neg (fun hc => h2 hc.symm), if_neg h2]

/-- Inversion of a successful `Remove`: the handle resolved to some live
position holding the returned item. -/
theorem Remove_ok_inv (s : SIV T) (h : Handle) (item : T) (s' : SIV T)
    (hrem : Remove s h = some (Except.ok item, s')) :
    ∃ id1, findID s h = some (Except.ok id1) ∧ s.data[id1]? = some item := by
  unfold Remove at hrem
  split at hrem
  · exact absurd hrem (by simp)
  · exact absurd hrem (by simp)
  · rename_i id1 hfind
    split at hrem
    · exact absurd hrem (by simp)
    · rename_i it hit
      refine ⟨id1, hfind, ?_⟩
      have hii : it = item := by
        split at hrem
        · exact absurd hrem (by simp)
        · split at hrem
          · split at hrem
            · exact absurd hrem (by simp)
            · simpa using congrArg (fun o => o.map Prod.fst) hrem
          · split at hrem
            · split at hrem
              · exact absurd hrem (by simp)
              · simpa using congrArg (fun o => o.map Prod.fst) hrem
            · exact absurd hrem (by simp)
      rw [← hii]
      exact hit

/-- A successful `Remove` keeps the state well formed; the removed handle's
reference id has its generation bumped by one and every other reference id
keeps its generation. -/
theorem Remove_wf_gen (s : SIV T) (hwf : WF s) (h : Handle) (item : T) (s' : SIV T)
    (hrem : Remove s h = some (Except.ok item, s')) :
    WF s' ∧
    s'.indices.length = s.indices.length ∧
    s'.meta.length = s.meta.length ∧
    s'.data.length = s.data.length - 1 ∧
    s'.gen h.rid.toNat = s.gen h.rid.toNat + 1 ∧
    (∀ r, r < s.indices.length → r ≠ h.rid.toNat → s'.gen r = s.gen r) := by
  obtain ⟨id1, hfind, hitem⟩ := Remove_ok_inv s h item s' hrem
  obtain ⟨s'', hrem2, hd, hi, hm, hmeta, hidx, _hdata⟩ :=
    Remove_ok_spec s hwf h id1 item hfind hitem
  have hs : s' = s'' := by
    rw [hrem] at hrem2
    simpa using hrem2
  subst hs
  obtain ⟨h0, hrl, hidx1, hid1m, hvid⟩ := findID_ok_facts s h _ hfind
  have hid1d : id1 < s.data.length := lt_of_getElem?_eq_some hitem
  have hn1 : s.data.length - 1 < s.data.length := by omega
  have hlastm : s.data.length - 1 < s.meta.length := lt_of_lt_of_le hn1 hwf.dlen
  have hrid1 : (s.metaAt id1).rid = h.rid.toNat := by
    have hmi := hwf.meta_idx _ hrl
    rw [hidx1] at hmi
    exact hmi
  have hr2lt : (s.metaAt (s.data.length - 1)).rid < s.indices.length := hwf.rid_lt _ hlastm
  have hidx2 : s.idxAt (s.metaAt (s.data.length - 1)).rid = s.data.length - 1 :=
    hwf.idx_meta _ hlastm
  have hr2r1 : (s.metaAt (s.data.length - 1)).rid = h.rid.toNat ↔ id1 = s.data.length - 1 := by
    constructor
    · intro hc
      rw [hc] at hidx2
      rw [hidx1] at hidx2
      exact hidx2
    · intro hc
      rw [← hc]
      exact hrid1
  have hparity1 : (s.metaAt id1).vid % 2 = 0 := by
    have := hwf.parity id1 hid1m
    omega
  have hparity2 : (s.metaAt (s.data.length - 1)).vid % 2 = 0 := by
    have := hwf.parity _ hlastm
    omega
  have hwf' : WF s' := by
    refine ⟨by rw [hi, hm]; exact hwf.ilen, by omega, ?_, ?_, ?_, ?_, ?_⟩
    · intro r hr
      rw [hi] at hr
      rw [hidx r hr, hm]
      by_cases hc1 : r = h.rid.toNat
      · rw [if_pos hc1]
        exact hlastm
      · rw [if_neg hc1]
        by_cases hc2 : r = (s.metaAt (s.data.length - 1)).rid
        · rw [if_pos hc2]
          exact hid1m
        · rw [if_neg hc2]
          exact hwf.idx_lt r hr
    · intro p hp
      rw [hm] at hp
      rw [hmeta p hp, hi]
      by_cases hc1 : p = s.data.length - 1
      · rw [if_pos hc1]
        exact hrl
      · rw [if_neg hc1]
        by_cases hc2 : p = id1
        · rw [if_pos hc2]
          exact hr2lt
        · rw [if_neg hc2]
          exact hwf.rid_lt p hp
    · intro p hp
      rw [hm] at hp
      rw [hmeta p hp]
      by_cases hc1 : p = s.data.length - 1
      · rw [if_pos hc1]
        dsimp only
        rw [hidx _ hrl, if_pos rfl, hc1]
      · rw [if_neg hc1]
        by_cases hc2 : p = id1
        · rw [if_pos hc2]
          have hr2ne : (s.metaAt (s.data.length - 1)).rid ≠ h.rid.toNat := by
            intro hc
            exact hc1 (hc2.trans (hr2r1.mp hc))
          rw [hidx _ hr2lt, if_neg hr2ne, if_pos rfl, hc2]
        · rw [if_neg hc2]
          rw [hidx _ (hwf.rid_lt p hp)]
          have hq1 : (s.metaAt p).rid ≠ h.rid.toNat := by
            intro hc
            have := hwf.idx_meta p hp
            rw [hc, hidx1] at this
            exact hc2 this.symm
          have hq2 : (s.metaAt p).rid ≠ (s.metaAt (s.data.length - 1)).rid := by
            intro hc
            have := hwf.idx_meta p hp
            rw [hc, hidx2] at this
            exact hc1 this.symm
          rw [if_neg hq1, if_neg hq2]
          exact hwf.idx_meta p hp
    · intro r hr
      rw [hi] at hr
      rw [hidx r hr]
      by_cases hc1 : r = h.rid.toNat
      · rw [if_pos hc1]
        rw [hmeta _ hlastm, if_pos rfl]
        dsimp only
        exact hc1.symm
      · rw [if_neg hc1]
        by_cases hc2 : r = (s.metaAt (s.data.length - 1)).rid
        · rw [if_pos hc2]
          have hne1 : id1 ≠ s.data.length - 1 := by
            intro hc
            exact hc1 (hc2.trans (hr2r1.mpr hc))
          rw [hmeta _ hid1m, if_neg hne1, if_pos rfl]
          exact hc2.symm
        · rw [if_neg hc2]
          have hql : s.idxAt r < s.meta.length := hwf.idx_lt r hr
          have hq1 : s.idxAt r ≠ s.data.length - 1 := by
            intro hc
            have := hwf.meta_idx r hr
            rw [hc] at this
            exact hc2 this.symm
          have hq2 : s.idxAt r ≠ id1 := by
            intro hc
            have := hwf.meta_idx r hr
            rw [hc, hrid1] at this
            exact hc1 this.symm
          rw [hmeta _ hql, if_neg hq1, if_neg hq2]
          exact hwf.meta_idx r hr
    · intro p hp
      rw [hm] at hp
      rw [hmeta p hp, hd]
      by_cases hc1 : p = s.data.length - 1
      · rw [if_pos hc1]
        dsimp only
        constructor
        · intro _
          omega
        · intro _
          omega
      · rw [if_neg hc1]
        by_cases hc2 : p = id1
        · rw [if_pos hc2]
          have hne1 : id1 ≠ s.data.length - 1 := fun hc => hc1 (hc2.trans hc)
          constructor
          · intro hcon
            omega
          · intro hcon
            omega
        · rw [if_neg hc2]
          have := hwf.parity p hp
          constructor
          · intro ho
            have := this.mp ho
            omega
          · intro hle
            exact this.mpr (by omega)
  refine ⟨hwf', by rw [hi], by rw [hm], by rw [hd], ?_, ?_⟩
  · simp only [SIV.gen]
    rw [hidx _ hrl, if_pos rfl, hmeta _ hlastm, if_pos rfl]
    dsimp only
    rw [hidx1]
  · intro r hr hne
    simp only [SIV.gen]
    rw [hidx r hr, if_neg hne]
    by_cases hc2 : r = (s.metaAt (s.data.length - 1)).rid
    · rw [if_pos hc2]
      have hne1 : id1 ≠ s.data.length - 1 := by
        intro hc
        exact hne (hc2.trans (hr2r1.mpr hc))
      rw [hmeta _ hid1m, if_neg hne1, if_pos rfl, hc2, hidx2]
    · rw [if_neg hc2]
      have hql : s.idxAt r < s.meta.length := hwf.idx_lt r hr
      have hq1 : s.idxAt r ≠ s.data.length - 1 := by
        intro hc
        have := hwf.meta_idx r hr
        rw [hc] at this
        exact hc2 this.symm
      have hq2 : s.idxAt r ≠ id1 := by
        intro hc
        have := hwf.meta_idx r hr
        rw [hc, hrid1] at this
        exact hne this.symm
      rw [hmeta _ hql, if_neg hq1, if_neg hq2]

/-- An erroring `Remove` leaves the receiver unchanged. -/
theorem Remove_error_inv (s : SIV T) (h : Handle) (e : SivError) (s₂ : SIV T)
    (hrem : Remove s h = some (Except.error e, s₂)) : s₂ = s := by
  unfold Remove at hrem
  split at hrem
  · exact absurd hrem (by simp)
  · have := congrArg (fun o => o.map Prod.snd) hrem
    simpa using this.symm
  · split at hrem
    · exact absurd hrem (by simp)
    · split at hrem
      · exact absurd hrem (by simp)
      · split at hrem
        · split at hrem
          · exact absurd hrem (by simp)
          · exact absurd hrem (by simp)
        · split at hrem
          · split at hrem
            · exact absurd hrem (by simp)
            · exact absurd hrem (by simp)
          · exact absurd hrem (by simp)

/-! ### Put: generation facts -/

/-- The handle `Put` returns: non-negative fields, an even generation that is
the current generation of its reference id in the new state, and the new
state resolves it to the old live length, where the item now sits.
Generations of other reference ids do not decrease. -/
theorem Put_gen (s : SIV T) (x : T) (hwf : WF s) :
    s.indices.length ≤ (Put s x).2.indices.length ∧
    (∀ r, r < s.indices.length → s.gen r ≤ (Put s x).2.gen r) ∧
    0 ≤ (Put s x).1.rid ∧
    (Put s x).1.rid.toNat < (Put s x).2.indices.length ∧
    (Put s x).1.vid = (((Put s x).2.gen (Put s x).1.rid.toNat : Nat) : Int) ∧
    (Put s x).1.vid.toNat % 2 = 0 ∧ 0 ≤ (Put s x).1.vid ∧
    findID (Put s x).2 (Put s x).1 = some (Except.ok s.data.length) ∧
    (Put s x).2.data[s.data.length]? = some x := by
  have hwf' : WF (Put s x).2 := WF_put s x hwf
  by_cases hlt : s.data.length < s.meta.length
  · obtain ⟨hd, hi, hm, hmeta⟩ := Put_reuse_state s x hlt
    have hidx : ∀ r, (Put s x).2.idxAt r = s.idxAt r := fun r => by
      simp only [SIV.idxAt, hi]
    have hrid0 : (s.metaAt s.data.length).rid < s.indices.length := hwf.rid_lt _ hlt
    have hback : s.idxAt (s.metaAt s.data.length).rid = s.data.length := hwf.idx_meta _ hlt
    have hodd : (s.metaAt s.data.length).vid % 2 = 1 := (hwf.parity _ hlt).mpr (le_refl _)
    have hhandle : (Put s x).1 =
        ⟨((s.metaAt s.data.length).rid : Int), (((s.metaAt s.data.length).vid + 1 : Nat) : Int)⟩ := by
      rw [Put_reuse s x hlt]
    have hgen : ∀ r, r < s.indices.length →
        (Put s x).2.gen r =
          if r = (s.metaAt s.data.length).rid then (s.metaAt s.data.length).vid + 1
          else s.gen r := by
      intro r hr
      simp only [SIV.gen, hidx, hmeta]
      by_cases hc : r = (s.metaAt s.data.length).rid
      · rw [if_pos hc, hc, hback, if_pos rfl]
      · have hq : s.idxAt r ≠ s.data.length := by
          intro hcon
          have hmi := hwf.meta_idx r hr
          rw [hcon] at hmi
          exact hc hmi.symm
        rw [if_neg hq, if_neg hc]
    have hrtoNat : (Put s x).1.rid.toNat = (s.metaAt s.data.length).rid := by
      rw [hhandle]
      exact Int.toNat_natCast _
    have hgen0 : s.gen (s.metaAt s.data.length).rid = (s.metaAt s.data.length).vid := by
      simp only [SIV.gen]
      rw [hback]
    have hveq : (Put s x).1.vid =
        (((Put s x).2.gen (Put s x).1.rid.toNat : Nat) : Int) := by
      rw [hrtoNat, hgen _ hrid0, if_pos rfl, hhandle]
    refine ⟨by rw [hi], ?_, ?_, ?_, hveq, ?_, ?_, ?_, ?_⟩
    · intro r hr
      rw [hgen r hr]
      by_cases hc : r = (s.metaAt s.data.length).rid
      · rw [if_pos hc, hc, hgen0]
        omega
      · rw [if_neg hc]
    · rw [hhandle]
      exact Int.natCast_nonneg _
    · rw [hrtoNat, hi]
      exact hrid0
    · rw [hhandle]
      dsimp only
      rw [Int.toNat_natCast]
      omega
    · rw [hhandle]
      dsimp only
      exact Int.natCast_nonneg _
    · rw [findID_wf _ hwf' _]
      rw [if_neg ?hc1]
      case hc1 =>
        rw [hhandle, hi]
        dsimp only
        intro hcon
        rcases hcon with hcon | hcon
        · omega
        · omega
      rw [if_neg ?hc2]
      case hc2 =>
        intro hcon
        exact hcon hveq.symm
      rw [hidx, hrtoNat, hback]
    · rw [Put_reuse s x hlt]
      exact List.getElem?_concat_length _ _
  · obtain ⟨hd, hi, hm, hmeta, hidx⟩ := Put_fresh_state s x hlt
    have hlen : s.meta.length = s.data.length := le_antisymm (le_of_not_lt hlt) hwf.dlen
    have hilen : s.indices.length = s.data.length := by rw [hwf.ilen, hlen]
    have hhandle : (Put s x).1 = ⟨(s.data.length : Int), 0⟩ := by
      rw [Put_fresh s x hlt]
    have hrtoNat : (Put s x).1.rid.toNat = s.data.length := by
      rw [hhandle]
      exact Int.toNat_natCast _
    have hgenold : ∀ r, r < s.indices.length → (Put s x).2.gen r = s.gen r := by
      intro r hr
      simp only [SIV.gen]
      rw [hidx, if_neg (by omega)]
      rw [hmeta, if_neg (by have := hwf.idx_lt r hr; omega)]
    have hgennew : (Put s x).2.gen s.data.length = 0 := by
      simp only [SIV.gen]
      rw [hidx, if_pos (by omega), hmeta, if_pos (by omega)]
    have hveq : (Put s x).1.vid =
        (((Put s x).2.gen (Put s x).1.rid.toNat : Nat) : Int) := by
      rw [hrtoNat, hgennew, hhandle]
      rfl
    refine ⟨by omega, ?_, ?_, ?_, hveq, ?_, ?_, ?_, ?_⟩
    · intro r hr
      rw [hgenold r hr]
    · rw [hhandle]
      exact Int.natCast_nonneg _
    · rw [hrtoNat]
      omega
    · rw [hhandle]
      rfl
    · rw [hhandle]
    · rw [findID_wf _ hwf' _]
      rw [if_neg ?hd1]
      case hd1 =>
        rw [hhandle]
        dsimp only
        intro hcon
        rcases hcon with hcon | hcon
        · omega
        · rw [hi] at hcon
          omega
      rw [if_neg ?hd2]
      case hd2 =>
        intro hcon
        exact hcon hveq.symm
      rw [hrtoNat, hidx, if_pos (by omega)]
    · rw [Put_fresh s x hlt]
      exact List.getElem?_concat_length _ _

/-! ### Pop -/

/-- On a non-empty well-formed state, `Pop` builds the handle of the last
live position, removes through it, and that removal succeeds, returning the
last stored item. -/
theorem Pop_spec [Inhabited T] (s : SIV T) (hwf : WF s) (hne : s.data.length ≠ 0) :
    ∃ item s', s.data[s.data.length - 1]? = some item ∧
      Remove s ⟨((s.metaAt (s.data.length - 1)).rid : Int),
                ((s.metaAt (s.data.length - 1)).vid : Int)⟩ = some (Except.ok item, s') ∧
      Pop s = some (item, s') := by
  have hn1 : s.data.length - 1 < s.data.length := by omega
  have hlastm : s.data.length - 1 < s.meta.length := lt_of_lt_of_le hn1 hwf.dlen
  have hm : s.meta[s.data.length - 1]? = some (s.metaAt (s.data.length - 1)) :=
    getElem?_eq_getD _ _ default hlastm
  have hr2lt : (s.metaAt (s.data.length - 1)).rid < s.indices.length := hwf.rid_lt _ hlastm
  have hidx2 : s.idxAt (s.metaAt (s.data.length - 1)).rid = s.data.length - 1 :=
    hwf.idx_meta _ hlastm
  have hfind : findID s ⟨((s.metaAt (s.data.length - 1)).rid : Int),
      ((s.metaAt (s.data.length - 1)).vid : Int)⟩ = some (Except.ok (s.data.length - 1)) := by
    rw [findID_wf s hwf]
    rw [if_neg ?hp1]
    case hp1 =>
      dsimp only
      intro hcon
      rcases hcon with hcon | hcon
      · omega
      · omega
    rw [if_neg ?hp2]
    case hp2 =>
      dsimp only
      rw [Int.toNat_natCast]
      simp only [SIV.gen]
      rw [hidx2]
      intro hcon
      exact hcon rfl
    dsimp only
    rw [Int.toNat_natCast, hidx2]
  have hitem : ∃ item, s.data[s.data.length - 1]? = some item :=
    ⟨_, List.getElem?_eq_getElem hn1⟩
  obtain ⟨item, hitem⟩ := hitem
  obtain ⟨s', hrem, _⟩ := Remove_ok_spec s hwf _ _ item hfind hitem
  refine ⟨item, s', hitem, hrem, ?_⟩
  unfold Pop
  rw [if_neg hne, hm]
  dsimp only
  rw [hrem]

/-- State inversion for `Pop`: the state either comes from a successful
`Remove` or is unchanged. -/
theorem Pop_inv [Inhabited T] (s : SIV T) (t : T) (s' : SIV T)
    (hpop : Pop s = some (t, s')) :
    s' = s ∨ ∃ h item, Remove s h = some (Except.ok item, s') := by
  unfold Pop at hpop
  split at hpop
  · exact absurd hpop (by simp)
  · split at hpop
    · exact absurd hpop (by simp)
    · rename_i m hm
      split at hpop
      · exact absurd hpop (by simp)
      · rename_i item s₂ hrem
        right
        have hs : s₂ = s' := by simpa using congrArg (fun o => o.map Prod.snd) hpop
        exact ⟨_, item, by rw [hrem, hs]⟩
      · rename_i e s₂ hrem
        left
        have hs : s₂ = s' := by simpa using congrArg (fun o => o.map Prod.snd) hpop
        rw [← hs]
        exact Remove_error_inv s _ e s₂ hrem

/-- State inversion for `Set`: the state either is unchanged (error) or is the
receiver with one data entry replaced. -/
theorem Set_state_inv (s : SIV T) (h : Handle) (v : T) (res : Except SivError T) (s' : SIV T)
    (hset : Set s h v = some (res, s')) :
    s' = s ∨ ∃ id old, findID s h = some (Except.ok id) ∧ s.data[id]? = some old ∧
      s' = { s with data := s.data.set id v } := by
  unfold Set at hset
  split at hset
  · exact absurd hset (by simp)
  · left
    simpa using (congrArg (fun o => o.map Prod.snd) hset).symm
  · rename_i id hfind
    split at hset
    · exact absurd hset (by simp)
    · rename_i old hold
      right
      refine ⟨id, old, hfind, hold, ?_⟩
      exact (by simpa using congrArg (fun o => o.map Prod.snd) hset : _ = s').symm

/-! ### Operation sequences -/

theorem WF_empty : WF (Siv.empty : SIV T) := by
  refine ⟨rfl, le_refl _, ?_, ?_, ?_, ?_, ?_⟩ <;>
    { intro a ha
      simp [Siv.empty] at ha }

/-- One operation keeps the state well formed, never shrinks the indirection
table and never decreases the generation bound to a reference id. -/
theorem applyOp_wf_gen [Inhabited T] (s : SIV T) (hwf : WF s) (op : Op T) :
    WF (applyOp s op) ∧
    s.indices.length ≤ (applyOp s op).indices.length ∧
    (∀ r, r < s.indices.length → s.gen r ≤ (applyOp s op).gen r) := by
  cases op with
  | put x =>
    have hp := Put_gen s x hwf
    exact ⟨WF_put s x hwf, hp.1, hp.2.1⟩
  | set h v =>
    cases hset : Set s h v with
    | none =>
      have happ : applyOp s (Op.set h v) = s := by
        simp only [applyOp, hset]
      rw [happ]
      exact ⟨hwf, le_refl _, fun r _ => le_refl _⟩
    | some p =>
      obtain ⟨res, s₂⟩ := p
      have happ : applyOp s (Op.set h v) = s₂ := by
        simp only [applyOp, hset]
      rw [happ]
      rcases Set_state_inv s h v res s₂ hset with hs | ⟨id, old, hfind, hold, hs⟩
      · subst hs
        exact ⟨hwf, le_refl _, fun r _ => le_refl _⟩
      · subst hs
        refine ⟨?_, le_refl _, fun r _ => le_refl _⟩
        refine ⟨hwf.ilen, ?_, hwf.idx_lt, hwf.rid_lt, hwf.idx_meta, hwf.meta_idx, ?_⟩
        · simpa using hwf.dlen
        · intro p hp
          simpa using hwf.parity p hp
  | remove h =>
    cases hrem : Remove s h with
    | none =>
      have happ : applyOp s (Op.remove h) = s := by
        simp only [applyOp, hrem]
      rw [happ]
      exact ⟨hwf, le_refl _, fun r _ => le_refl _⟩
    | some p =>
      obtain ⟨res, s₂⟩ := p
      have happ : applyOp s (Op.remove h) = s₂ := by
        simp only [applyOp, hrem]
      rw [happ]
      cases res with
      | error e =>
        have hs : s₂ = s := Remove_error_inv s h e s₂ hrem
        subst hs
        exact ⟨hwf, le_refl _, fun r _ => le_refl _⟩
      | ok item =>
        obtain ⟨hwf2, hil, _, _, hg1, hg⟩ := Remove_wf_gen s hwf h item s₂ hrem
        refine ⟨hwf2, le_of_eq hil.symm, fun r hr => ?_⟩
        by_cases hc : r = h.rid.toNat
        · subst hc
          omega
        · rw [hg r hr hc]
  | pop =>
    cases hpop : Pop s with
    | none =>
      have happ : applyOp s Op.pop = s := by
        simp only [applyOp, hpop]
      rw [happ]
      exact ⟨hwf, le_refl _, fun r _ => le_refl _⟩
    | some p =>
      obtain ⟨t, s₂⟩ := p
      have happ : applyOp s Op.pop = s₂ := by
        simp only [applyOp, hpop]
      rw [happ]
      rcases Pop_inv s t s₂ hpop with hs | ⟨h, item, hrem⟩
      · subst hs
        exact ⟨hwf, le_refl _, fun r _ => le_refl _⟩
      · obtain ⟨hwf2, hil, _, _, hg1, hg⟩ := Remove_wf_gen s hwf h item s₂ hrem
        refine ⟨hwf2, le_of_eq hil.symm, fun r hr => ?_⟩
        by_cases hc : r = h.rid.toNat
        · subst hc
          omega
        · rw [hg r hr hc]

/-- A sequence of operations keeps the state well formed, never shrinks the
indirection table and never decreases generations. -/
theorem applyAll_wf_gen [Inhabited T] (ops : List (Op T)) (s : SIV T) (hwf : WF s) :
    WF (applyAll s ops) ∧
    s.indices.length ≤ (applyAll s ops).indices.length ∧
    (∀ r, r < s.indices.length → s.gen r ≤ (applyAll s ops).gen r) := by
  induction ops generalizing s with
  | nil => exact ⟨hwf, le_refl _, fun r _ => le_refl _⟩
  | cons op ops ih =>
    have h1 := applyOp_wf_gen s hwf op
    have h2 := ih (applyOp s op) h1.1
    have hcons : applyAll s (op :: ops) = applyAll (applyOp s op) ops := rfl
    rw [hcons]
    exact ⟨h2.1, le_trans h1.2.1 h2.2.1,
      fun r hr => le_trans (h1.2.2 r hr) (h2.2.2 r (lt_of_lt_of_le hr h1.2.1))⟩

/-- Handles issued by the `Put` calls of a run have a non-negative reference
id that stays inside the indirection table, and an even, non-negative
generation that never exceeds the generation currently bound to that
reference id. -/
theorem issued_facts [Inhabited T] (ops : List (Op T)) (s : SIV T) (hwf : WF s) :
    ∀ h, h ∈ issuedFrom s ops →
      0 ≤ h.rid ∧ h.rid.toNat < (applyAll s ops).indices.length ∧
      h.vid ≤ (((applyAll s ops).gen h.rid.toNat : Nat) : Int) ∧
      0 ≤ h.vid ∧ h.vid.toNat % 2 = 0 := by
  induction ops generalizing s with
  | nil =>
    intro h hmem
    simp [issuedFrom] at hmem
  | cons op ops ih =>
    intro h hmem
    have hcons : applyAll s (op :: ops) = applyAll (applyOp s op) ops := rfl
    rw [hcons]
    have hwf1 := (applyOp_wf_gen s hwf op).1
    simp only [issuedFrom, List.mem_append] at hmem
    rcases hmem with hmem | hmem
    · cases op with
      | put x =>
        have hx : h = (Put s x).1 := by simpa using hmem
        subst hx
        obtain ⟨hil, hmono, hr0, hrl, hveq, heven, hv0, hfind, hdata⟩ := Put_gen s x hwf
        have hall := applyAll_wf_gen ops (applyOp s (Op.put x)) hwf1
        have happ : applyOp s (Op.put x) = (Put s x).2 := rfl
        rw [happ] at hall ⊢
        refine ⟨hr0, lt_of_lt_of_le hrl hall.2.1, ?_, hv0, heven⟩
        have hmono2 := hall.2.2 (Put s x).1.rid.toNat hrl
        omega
      | set hh v => simp at hmem
      | remove hh => simp at hmem
      | pop => simp at hmem
    · exact ih (applyOp s op) hwf1 h hmem

/-- A list whose (decidable) predicate holds exactly from position `k` on has
exactly `length - k` entries satisfying it. -/
theorem countP_eq_of_iff_le {α : Type} (pred : α → Bool) (d : α) :
    ∀ (l : List α) (k : Nat), k ≤ l.length →
      (∀ p, p < l.length → (pred (l.getD p d) = true ↔ k ≤ p)) →
      l.countP pred = l.length - k := by
  intro l
  induction l with
  | nil =>
    intro k hk _
    simp at hk
    simp [hk]
  | cons a t ih =>
    intro k hk hiff
    rcases Nat.eq_zero_or_pos k with hk0 | hkpos
    · subst hk0
      have hall : pred a = true := by
        have := (hiff 0 (by simp)).mpr (by omega)
        simpa [List.getD_cons_zero] using this
      have ht : t.countP pred = t.length := by
        have h2 := ih 0 (by omega) ?_
        · simpa using h2
        · intro p hp
          have h3 := hiff (p + 1) (by simp; omega)
          simpa [List.getD_cons_succ] using h3
      rw [List.countP_cons, ht, if_pos hall]
      simp
    · have hna : ¬ pred a = true := by
        intro hcon
        have := (hiff 0 (by simp)).mp (by simpa [List.getD_cons_zero] using hcon)
        omega
      have ht : t.countP pred = t.length - (k - 1) := by
        apply ih (k - 1) (by simp at hk; omega)
        intro p hp
        have h2 := hiff (p + 1) (by simp; omega)
        rw [List.getD_cons_succ] at h2
        constructor
        · intro hpred
          have := h2.mp hpred
          omega
        · intro hle
          exact h2.mpr (by omega)
      rw [List.countP_cons, ht, if_neg hna]
      simp only [List.length_cons]
      simp at hk
      omega

/-- In a well-formed state the number of odd-generation (freed) slots is the
length surplus of the metadata sequence over the item sequence. -/
theorem freed_count (s : SIV T) (hwf : WF s) :
    s.meta.countP (fun m => m.vid % 2 == 1) = s.meta.length - s.data.length := by
  apply countP_eq_of_iff_le _ default _ s.data.length hwf.dlen
  intro p hp
  have hpar := hwf.parity p hp
  constructor
  · intro hb
    exact hpar.mp (beq_iff_eq.mp hb)
  · intro hle
    exact beq_iff_eq.mpr (hpar.mpr hle)

/-! ## Claims -/

/-- C1, counterexample to the claim as stated.  The claim says that whenever
neither failure condition holds the operation succeeds resolving to
`indirection[rid]`.  In the state reached from the empty container by
`Put 1; Remove` (data `[]`, indirection `[0]`, metadata `[{0, 1}]`) the forged
handle `(0, 1)` triggers neither `InvalidHandle` (rid 0 is in bounds) nor
`ExpiredHandle` (the stored generation is 1), yet `Get`, `Set` and `Remove` do
not succeed: they panic (`none`) on the out-of-live-range data access. -/
theorem C1_counterexample :
    Remove (Put (Siv.empty : SIV Int) 1).2 (Put (Siv.empty : SIV Int) 1).1 =
      some (Except.ok 1, cexState) ∧
    cexState = ⟨[], [0], [⟨0, 1⟩]⟩ ∧
    findID cexState ⟨0, 1⟩ = some (Except.ok 0) ∧
    Get cexState ⟨0, 1⟩ = none ∧
    Set cexState ⟨0, 1⟩ 5 = none ∧
    Remove cexState ⟨0, 1⟩ = none := by
  decide

/-- C1 (amended): on a well-formed state, an operation fails with
`InvalidHandle` exactly when `rid` is outside the indirection-table bounds,
fails with `ExpiredHandle` exactly when `rid` is in bounds but the generation
stored at `slot_metadata[indirection[rid]]` differs from the handle's, both
failures leave the state unchanged, and otherwise resolution yields position
`indirection[rid]`; the operation then succeeds when that position is live
(always the case for container-issued handles) and panics, rather than
failing with an error, when a forged generation matches a freed slot. -/
theorem C1_amended (s : SIV Int) (hwf : WF s) (h : Handle) (v : Int) :
    (findID s h = some (Except.error SivError.invalid) ↔
      h.rid < 0 ∨ (s.indices.length : Int) ≤ h.rid) ∧
    (findID s h = some (Except.error SivError.expired) ↔
      (0 ≤ h.rid ∧ h.rid < (s.indices.length : Int)) ∧
        ((s.gen h.rid.toNat : Nat) : Int) ≠ h.vid) ∧
    (∀ e, findID s h = some (Except.error e) →
      Get s h = some (Except.error e) ∧
      Set s h v = some (Except.error e, s) ∧
      Remove s h = some (Except.error e, s)) ∧
    (∀ id, findID s h = some (Except.ok id) →
      id = s.idxAt h.rid.toNat ∧
      (id < s.data.length →
        (∃ w, Get s h = some (Except.ok w)) ∧
        (∃ w s₁, Set s h v = some (Except.ok w, s₁)) ∧
        (∃ w s₁, Remove s h = some (Except.ok w, s₁))) ∧
      (s.data.length ≤ id →
        Get s h = none ∧ Set s h v = none ∧ Remove s h = none)) := by
  have hclosed := findID_wf s hwf h
  refine ⟨?_, ?_, ?_, ?_⟩
  · rw [hclosed]
    by_cases hb : h.rid < 0 ∨ (s.indices.length : Int) ≤ h.rid
    · simp [hb]
    · rw [if_neg hb]
      by_cases hv2 : ((s.gen h.rid.toNat : Nat) : Int) ≠ h.vid
      · rw [if_pos hv2]
        simp [hb]
      · rw [if_neg hv2]
        simp [hb]
  · rw [hclosed]
    by_cases hb : h.rid < 0 ∨ (s.indices.length : Int) ≤ h.rid
    · rw [if_pos hb]
      constructor
      · intro hcon
        simp at hcon
      · intro hcon
        rcases hcon with ⟨⟨h1, h2⟩, _⟩
        rcases hb with hb | hb
        · omega
        · omega
    · rw [if_neg hb]
      by_cases hv2 : ((s.gen h.rid.toNat : Nat) : Int) ≠ h.vid
      · rw [if_pos hv2]
        constructor
        · intro _
          exact ⟨⟨by omega, by omega⟩, hv2⟩
        · intro _
          rfl
      · rw [if_neg hv2]
        constructor
        · intro hcon
          simp at hcon
        · intro hcon
          exact absurd hcon.2 hv2
  · intro e hfe
    exact ⟨Get_error s h e hfe, Set_error s h v e hfe, Remove_error s h e hfe⟩
  · intro id hok
    obtain ⟨h0, hrl, hidx, hidm, hvid⟩ := findID_ok_facts s h id hok
    refine ⟨hidx.symm, ?_, ?_⟩
    · intro hlive
      obtain ⟨w, hw⟩ : ∃ w, s.data[id]? = some w := ⟨_, List.getElem?_eq_getElem hlive⟩
      obtain ⟨s₂, hrem, _⟩ := Remove_ok_spec s hwf h id w hok hw
      exact ⟨⟨w, Get_ok s h id w hok hw⟩, ⟨w, _, Set_ok s h v id w hok hw⟩,
        ⟨w, s₂, hrem⟩⟩
    · intro hge
      exact ⟨Get_none s h id hok hge, Set_none s h v id hok hge,
        Remove_none s h id hok hge⟩

/-- C1 witness: the amended theorem applied to the concrete state
`cexState` and the genuinely expired handle `(0, 0)`. -/
theorem C1_witness :
    Get cexState (⟨0, 0⟩ : Handle) = some (Except.error SivError.expired) ∧
    Remove cexState (⟨0, 0⟩ : Handle) = some (Except.error SivError.expired, cexState) := by
  have hwf : WF cexState :=
    ⟨by decide, by decide, by decide, by decide, by decide, by decide, by decide⟩
  have h := (C1_amended cexState hwf ⟨0, 0⟩ 0).2.2.1 SivError.expired (by decide)
  exact ⟨h.1, h.2.2⟩

/-- C2: after every state-changing operation the state stays well formed; in
particular every occupied position `p` satisfies
`indirection[slot_metadata[p].reference_id] = p`, and the indirection table
is at least as long as the item sequence, the surplus being the number of
currently-freed (odd-generation) not-yet-reused slots.  `Get`, `Len`, `Cap`
and the iterators take the receiver without writing to it, so they cannot
change the state at all. -/
theorem C2_invariants (s : SIV Int) (hwf : WF s) (op : Op Int) :
    WF (applyOp s op) ∧
    (∀ p, p < (applyOp s op).data.length →
      (applyOp s op).idxAt ((applyOp s op).metaAt p).rid = p) ∧
    (applyOp s op).data.length ≤ (applyOp s op).indices.length ∧
    (applyOp s op).indices.length =
      (applyOp s op).data.length +
        (applyOp s op).meta.countP (fun m => m.vid % 2 == 1) := by
  have hwf' := (applyOp_wf_gen s hwf op).1
  refine ⟨hwf', ?_, ?_, ?_⟩
  · intro p hp
    exact hwf'.idx_meta p (lt_of_lt_of_le hp hwf'.dlen)
  · rw [hwf'.ilen]
    exact hwf'.dlen
  · rw [freed_count _ hwf', hwf'.ilen]
    have := hwf'.dlen
    omega

/-- C2 witness: the invariants after a `Put` and after a `Remove` on small
concrete states. -/
theorem C2_witness :
    WF (applyOp (Siv.empty : SIV Int) (Op.put 3)) ∧
    (applyOp (⟨[5], [0], [⟨0, 0⟩]⟩ : SIV Int) (Op.remove ⟨0, 0⟩)).indices.length =
      (applyOp (⟨[5], [0], [⟨0, 0⟩]⟩ : SIV Int) (Op.remove ⟨0, 0⟩)).data.length +
        (applyOp (⟨[5], [0], [⟨0, 0⟩]⟩ : SIV Int) (Op.remove ⟨0, 0⟩)).meta.countP
          (fun m => m.vid % 2 == 1) := by
  have h1 := C2_invariants Siv.empty
    ⟨by decide, by decide, by decide, by decide, by decide, by decide, by decide⟩ (Op.put 3)
  have h2 := C2_invariants (⟨[5], [0], [⟨0, 0⟩]⟩ : SIV Int)
    ⟨by decide, by decide, by decide, by decide, by decide, by decide, by decide⟩
    (Op.remove ⟨0, 0⟩)
  exact ⟨h1.1, h2.2.2.2⟩

/-- C3, counterexample to the claim as stated.  After `Put 1; Remove` on the
empty container the item sequence is empty but the slot-metadata sequence
still has one (freed) entry, so the two lengths differ. -/
theorem C3_counterexample :
    Remove (Put (Siv.empty : SIV Int) 1).2 (Put (Siv.empty : SIV Int) 1).1 =
      some (Except.ok 1, cexState) ∧
    cexState.data.length = 0 ∧ cexState.meta.length = 1 := by
  decide

/-- C3 (amended): after every state-changing operation the item sequence is
at most as long as the slot-metadata sequence (they differ by the number of
freed slots), and the slot-metadata sequence always has exactly the length of
the indirection table. -/
theorem C3_amended (s : SIV Int) (hwf : WF s) (op : Op Int) :
    (applyOp s op).data.length ≤ (applyOp s op).meta.length ∧
    (applyOp s op).meta.length = (applyOp s op).indices.length := by
  have hwf' := (applyOp_wf_gen s hwf op).1
  exact ⟨hwf'.dlen, hwf'.ilen.symm⟩

/-- C3 witness: the amended length relation after a concrete `Remove`. -/
theorem C3_witness :
    (applyOp (⟨[5], [0], [⟨0, 0⟩]⟩ : SIV Int) (Op.remove ⟨0, 0⟩)).data.length ≤
      (applyOp (⟨[5], [0], [⟨0, 0⟩]⟩ : SIV Int) (Op.remove ⟨0, 0⟩)).meta.length ∧
    (applyOp (⟨[5], [0], [⟨0, 0⟩]⟩ : SIV Int) (Op.remove ⟨0, 0⟩)).meta.length =
      (applyOp (⟨[5], [0], [⟨0, 0⟩]⟩ : SIV Int) (Op.remove ⟨0, 0⟩)).indices.length :=
  C3_amended (⟨[5], [0], [⟨0, 0⟩]⟩ : SIV Int)
    ⟨by decide, by decide, by decide, by decide, by decide, by decide, by decide⟩
    (Op.remove ⟨0, 0⟩)

/-- C4: once `Remove(h)` succeeds, every later `Get(h)`, `Set(h,_)` and
`Remove(h)` fails with `ExpiredHandle`, whatever further operations run on
the container in between (generations never wrap in the model), and the
failing calls leave the state unchanged. -/
theorem C4_expiry (s : SIV Int) (h : Handle) (item : Int) (s' : SIV Int)
    (ops : List (Op Int)) (hwf : WF s)
    (hrem : Remove s h = some (Except.ok item, s')) :
    Get (applyAll s' ops) h = some (Except.error SivError.expired) ∧
    (∀ v, Set (applyAll s' ops) h v =
      some (Except.error SivError.expired, applyAll s' ops)) ∧
    Remove (applyAll s' ops) h =
      some (Except.error SivError.expired, applyAll s' ops) := by
  obtain ⟨id1, hfind, hitem⟩ := Remove_ok_inv s h item s' hrem
  obtain ⟨h0, hrl, hidx1, hid1m, hvid⟩ := findID_ok_facts s h id1 hfind
  obtain ⟨hwf2, hil, hml, hdl, hg1, hg⟩ := Remove_wf_gen s hwf h item s' hrem
  have hgen_s : ((s.gen h.rid.toNat : Nat) : Int) = h.vid := by
    simp only [SIV.gen]
    rw [hidx1]
    exact hvid
  have hdead : h.vid < ((s'.gen h.rid.toNat : Nat) : Int) := by
    rw [hg1]
    omega
  have hrl' : h.rid.toNat < s'.indices.length := by omega
  have hall := applyAll_wf_gen ops s' hwf2
  have hrlA : h.rid.toNat < (applyAll s' ops).indices.length :=
    lt_of_lt_of_le hrl' hall.2.1
  have hdeadA : h.vid < (((applyAll s' ops).gen h.rid.toNat : Nat) : Int) := by
    have := hall.2.2 _ hrl'
    omega
  have hfindA : findID (applyAll s' ops) h = some (Except.error SivError.expired) := by
    rw [findID_wf _ hall.1]
    rw [if_neg ?ha1]
    case ha1 =>
      intro hcon
      rcases hcon with hcon | hcon
      · omega
      · omega
    rw [if_pos ?ha2]
    case ha2 => omega
  exact ⟨Get_error _ _ _ hfindA, fun v => Set_error _ _ v _ hfindA,
    Remove_error _ _ _ hfindA⟩

/-- C4 witness: remove the only item, then insert another value; the old
handle reports `ExpiredHandle` from all three operations. -/
theorem C4_witness :
    Get (applyAll (⟨[], [0], [⟨0, 1⟩]⟩ : SIV Int) [Op.put 7]) ⟨0, 0⟩ =
      some (Except.error SivError.expired) ∧
    Remove (applyAll (⟨[], [0], [⟨0, 1⟩]⟩ : SIV Int) [Op.put 7]) ⟨0, 0⟩ =
      some (Except.error SivError.expired, applyAll (⟨[], [0], [⟨0, 1⟩]⟩ : SIV Int) [Op.put 7]) := by
  have h := C4_expiry (⟨[5], [0], [⟨0, 0⟩]⟩ : SIV Int) ⟨0, 0⟩ 5
    (⟨[], [0], [⟨0, 1⟩]⟩ : SIV Int) [Op.put 7]
    ⟨by decide, by decide, by decide, by decide, by decide, by decide, by decide⟩
    (by decide)
  exact ⟨h.1, h.2.2⟩

/-- C5: removing one live handle never changes the value another distinct
live handle retrieves, even when the surviving handle's item is the last
element and gets relocated into the removed item's old position. -/
theorem C5_frame (s : SIV Int) (hwf : WF s) (a b : Handle) (ia ib : Nat) (x : Int)
    (s' : SIV Int)
    (hfa : findID s a = some (Except.ok ia)) (hfb : findID s b = some (Except.ok ib))
    (hla : ia < s.data.length) (hlb : ib < s.data.length) (hab : a ≠ b)
    (hrem : Remove s a = some (Except.ok x, s')) :
    Get s' b = Get s b := by
  obtain ⟨ha0, hral, hidxa, hiam, hvida⟩ := findID_ok_facts s a ia hfa
  obtain ⟨hb0, hrbl, hidxb, hibm, hvidb⟩ := findID_ok_facts s b ib hfb
  have hrida : (s.metaAt ia).rid = a.rid.toNat := by
    have hmi := hwf.meta_idx _ hral
    rw [hidxa] at hmi
    exact hmi
  have hridb : (s.metaAt ib).rid = b.rid.toNat := by
    have hmi := hwf.meta_idx _ hrbl
    rw [hidxb] at hmi
    exact hmi
  have hrne : a.rid.toNat ≠ b.rid.toNat := by
    intro hc
    apply hab
    have hia : ia = ib := by
      rw [← hidxa, ← hidxb, hc]
    have h1 : a.rid = b.rid := by omega
    have h2 : a.vid = b.vid := by
      rw [← hvida, ← hvidb, hia]
    obtain ⟨ar, av⟩ := a
    obtain ⟨br, bv⟩ := b
    dsimp only at h1 h2
    rw [h1, h2]
  have hiab : ia ≠ ib := by
    intro hc
    apply hrne
    rw [← hrida, ← hridb, hc]
  obtain ⟨vb, hvb⟩ : ∃ vb, s.data[ib]? = some vb := ⟨_, List.getElem?_eq_getElem hlb⟩
  have hxa : s.data[ia]? = some x := by
    obtain ⟨id1, hfind', hitem'⟩ := Remove_ok_inv s a x s' hrem
    rw [hfa] at hfind'
    have : id1 = ia := by simpa using hfind'.symm
    rwa [this] at hitem'
  obtain ⟨s₂, hrem2, hd, hi, hm, hmeta, hidx, hdata⟩ :=
    Remove_ok_spec s hwf a ia x hfa hxa
  have hs : s' = s₂ := by
    rw [hrem] at hrem2
    simpa using hrem2
  subst hs
  obtain ⟨hwf2, _, _, _, _, _⟩ := Remove_wf_gen s hwf a x _ hrem
  have hgb : s.gen b.rid.toNat = (s.metaAt ib).vid := by
    simp only [SIV.gen]
    rw [hidxb]
  -- where does b's item live after the removal?
  by_cases hlast : ib = s.data.length - 1
  · -- b was the last element: it has been relocated into position ia
    have hr2b : (s.metaAt (s.data.length - 1)).rid = b.rid.toNat := by
      rw [← hlast, hridb]
    have hfin' : findID s' b = some (Except.ok ia) := by
      rw [findID_wf s' hwf2]
      rw [if_neg ?hb1]
      case hb1 =>
        rw [hi]
        intro hcon
        rcases hcon with hcon | hcon
        · omega
        · omega
      rw [if_neg ?hb2]
      case hb2 =>
        simp only [SIV.gen]
        rw [hidx _ hrbl, if_neg hrne.symm, if_pos hr2b.symm,
          hmeta _ hiam, if_neg (by omega), if_pos rfl]
        intro hcon
        rw [← hlast] at hcon
        exact hcon hvidb
      rw [hidx _ hrbl, if_neg hrne.symm, if_pos hr2b.symm]
    have hia' : ia < s.data.length - 1 := by omega
    have hdb : s'.data[ia]? = some vb := by
      rw [hdata ia hia', if_pos rfl, ← hlast]
      exact hvb
    rw [Get_ok s' b ia vb hfin' hdb, Get_ok s b ib vb hfb hvb]
  · -- b's position is untouched
    have hr2b : (s.metaAt (s.data.length - 1)).rid ≠ b.rid.toNat := by
      intro hc
      have := hwf.idx_meta (s.data.length - 1)
        (lt_of_lt_of_le (by omega) hwf.dlen)
      rw [hc, hidxb] at this
      exact hlast this
    have hfin' : findID s' b = some (Except.ok ib) := by
      rw [findID_wf s' hwf2]
      rw [if_neg ?hb3]
      case hb3 =>
        rw [hi]
        intro hcon
        rcases hcon with hcon | hcon
        · omega
        · omega
      rw [if_neg ?hb4]
      case hb4 =>
        simp only [SIV.gen]
        rw [hidx _ hrbl, if_neg hrne.symm, if_neg (fun hc => hr2b hc.symm), hidxb,
          hmeta _ hibm, if_neg hlast, if_neg hiab.symm]
        intro hcon
        exact hcon hvidb
      rw [hidx _ hrbl, if_neg hrne.symm, if_neg (fun hc => hr2b hc.symm), hidxb]
    have hib' : ib < s.data.length - 1 := by omega
    have hdb : s'.data[ib]? = some vb := by
      rw [hdata ib hib', if_neg hiab.symm]
      exact hvb
    rw [Get_ok s' b ib vb hfin' hdb, Get_ok s b ib vb hfb hvb]

/-- C5 witness: removing the first of two items relocates the second one, yet
its handle still retrieves the same value as before. -/
theorem C5_witness :
    Get (⟨[2], [1, 0], [⟨1, 0⟩, ⟨0, 1⟩]⟩ : SIV Int) ⟨1, 0⟩ =
      Get (⟨[1, 2], [0, 1], [⟨0, 0⟩, ⟨1, 0⟩]⟩ : SIV Int) ⟨1, 0⟩ :=
  C5_frame (⟨[1, 2], [0, 1], [⟨0, 0⟩, ⟨1, 0⟩]⟩ : SIV Int)
    ⟨by decide, by decide, by decide, by decide, by decide, by decide, by decide⟩
    ⟨0, 0⟩ ⟨1, 0⟩ 0 1 1 (⟨[2], [1, 0], [⟨1, 0⟩, ⟨0, 1⟩]⟩ : SIV Int)
    (by decide) (by decide) (by decide) (by decide) (by decide) (by decide)

/-- C6: freed slots are reused last-freed-first with strictly increasing
generations.  (a) A successful `Remove` leaves the vacated slot — carrying
the removed handle's reference id with its generation plus one — exactly at
the new live length, which is the position the next `Put` consumes, so the
most recently freed slot is always reused first.  (b) A `Put` on a state
with freed slots consumes exactly that frontier slot, returning its
reference id with a generation one past the slot's stored (odd) generation,
and grows the live region by one, moving the frontier to the next (earlier
freed) slot.  (c) Over any run from the empty container, the handle such a
`Put` returns has a strictly greater generation than every previously issued
handle with the same reference id. -/
theorem C6_reuse :
    (∀ (s : SIV Int) (h : Handle) (item : Int) (s' : SIV Int), WF s →
      Remove s h = some (Except.ok item, s') →
      s'.metaAt s'.data.length = ⟨h.rid.toNat, h.vid.toNat + 1⟩ ∧
      s'.data.length < s'.meta.length) ∧
    (∀ (s : SIV Int) (x : Int), WF s → s.data.length < s.meta.length →
      (Put s x).1 = ⟨((s.metaAt s.data.length).rid : Int),
        (((s.metaAt s.data.length).vid + 1 : Nat) : Int)⟩ ∧
      ((s.gen (s.metaAt s.data.length).rid : Nat) : Int) < (Put s x).1.vid ∧
      (Put s x).2.data.length = s.data.length + 1) ∧
    (∀ (ops : List (Op Int)) (x : Int) (h' : Handle),
      h' ∈ issuedFrom (Siv.empty : SIV Int) ops →
      h'.rid = (Put (applyAll Siv.empty ops) x).1.rid →
      h'.vid < (Put (applyAll Siv.empty ops) x).1.vid) := by
  refine ⟨?_, ?_, ?_⟩
  · intro s h item s' hwf hrem
    obtain ⟨id1, hfind, hitem⟩ := Remove_ok_inv s h item s' hrem
    obtain ⟨s₂, hrem2, hd, hi, hm, hmeta, hidx, hdata⟩ :=
      Remove_ok_spec s hwf h id1 item hfind hitem
    have hs : s' = s₂ := by
      rw [hrem] at hrem2
      simpa using hrem2
    subst hs
    obtain ⟨h0, hrl, hidx1, hid1m, hvid⟩ := findID_ok_facts s h id1 hfind
    have hid1d : id1 < s.data.length := lt_of_getElem?_eq_some hitem
    have hlastm : s.data.length - 1 < s.meta.length :=
      lt_of_lt_of_le (by omega) hwf.dlen
    constructor
    · rw [hd, hmeta _ hlastm, if_pos rfl]
      have hv : (s.metaAt id1).vid = h.vid.toNat := by
        rw [← hvid, Int.toNat_natCast]
      rw [hv]
    · rw [hd, hm]
      omega
  · intro s x hwf hlt
    have hgen0 : s.gen (s.metaAt s.data.length).rid = (s.metaAt s.data.length).vid := by
      simp only [SIV.gen]
      rw [hwf.idx_meta _ hlt]
    refine ⟨by rw [Put_reuse s x hlt], ?_, (Put_reuse_state s x hlt).1⟩
    rw [Put_reuse s x hlt, hgen0]
    dsimp only
    omega
  · intro ops x h' hmem hr
    obtain ⟨h0', hrl', hle', hv0', heven'⟩ :=
      issued_facts ops Siv.empty WF_empty h' hmem
    have key : ∀ s : SIV Int, WF s → h'.rid.toNat < s.indices.length →
        h'.vid ≤ ((s.gen h'.rid.toNat : Nat) : Int) →
        h'.rid = (Put s x).1.rid → h'.vid < (Put s x).1.vid := by
      intro s hwf hrl2 hle2 hr2
      by_cases hlt : s.data.length < s.meta.length
      · have hgen0 : s.gen (s.metaAt s.data.length).rid = (s.metaAt s.data.length).vid := by
          simp only [SIV.gen]
          rw [hwf.idx_meta _ hlt]
        have hh : (Put s x).1 = ⟨((s.metaAt s.data.length).rid : Int),
            (((s.metaAt s.data.length).vid + 1 : Nat) : Int)⟩ := by
          rw [Put_reuse s x hlt]
        rw [hh]
        rw [hh] at hr2
        dsimp only at hr2 ⊢
        have htn : h'.rid.toNat = (s.metaAt s.data.length).rid := by omega
        rw [htn] at hle2
        rw [hgen0] at hle2
        omega
      · have hh : (Put s x).1 = ⟨(s.data.length : Int), 0⟩ := by
          rw [Put_fresh s x hlt]
        rw [hh] at hr2
        dsimp only at hr2
        have hlen : s.meta.length = s.data.length :=
          le_antisymm (le_of_not_lt hlt) hwf.dlen
        have hilen : s.indices.length = s.data.length := by rw [hwf.ilen, hlen]
        omega
    exact key (applyAll (Siv.empty : SIV Int) ops)
      (applyAll_wf_gen ops Siv.empty WF_empty).1 hrl' hle' hr

/-- C6 witness: on the state with one freed slot left by `Put 5; Remove`,
the next insertion reuses that slot with generation 2. -/
theorem C6_witness :
    (⟨[], [0], [⟨0, 1⟩]⟩ : SIV Int).metaAt
        (⟨[], [0], [⟨0, 1⟩]⟩ : SIV Int).data.length = ⟨0, 1⟩ ∧
    (Put (⟨[], [0], [⟨0, 1⟩]⟩ : SIV Int) 9).1 = ⟨0, 2⟩ := by
  have hwf : WF (⟨[5], [0], [⟨0, 0⟩]⟩ : SIV Int) :=
    ⟨by decide, by decide, by decide, by decide, by decide, by decide, by decide⟩
  have hwf' : WF (⟨[], [0], [⟨0, 1⟩]⟩ : SIV Int) :=
    ⟨by decide, by decide, by decide, by decide, by decide, by decide, by decide⟩
  have ha := C6_reuse.1 (⟨[5], [0], [⟨0, 0⟩]⟩ : SIV Int) ⟨0, 0⟩ 5
    (⟨[], [0], [⟨0, 1⟩]⟩ : SIV Int) hwf (by decide)
  have hb := C6_reuse.2.1 (⟨[], [0], [⟨0, 1⟩]⟩ : SIV Int) 9 hwf' (by decide)
  exact ⟨ha.1, hb.1⟩

/-- C7: `Set(h, v)` followed by `Get(h)` yields `v`, and `Get` on the handle
a `Put` just returned yields the inserted value. -/
theorem C7_roundtrip (s : SIV Int) (hwf : WF s) (h : Handle) (v : Int) :
    (∀ old s₁, Set s h v = some (Except.ok old, s₁) → Get s₁ h = some (Except.ok v)) ∧
    (∀ x, Get (Put s x).2 (Put s x).1 = some (Except.ok x)) := by
  constructor
  · intro old s₁ hset
    obtain ⟨id, hfind, hold, hs⟩ := Set_ok_inv s h v old s₁ hset
    subst hs
    have hfind' : findID { s with data := s.data.set id v } h = some (Except.ok id) :=
      hfind
    have hid : id < s.data.length := lt_of_getElem?_eq_some hold
    apply Get_ok _ h id v hfind'
    show (s.data.set id v)[id]? = some v
    rw [List.getElem?_set, if_pos rfl, if_pos hid]
  · intro x
    obtain ⟨hil, hmono, hr0, hrl, hveq, heven, hv0, hfind, hdata⟩ := Put_gen s x hwf
    exact Get_ok _ _ _ x hfind hdata

/-- C7 witness: set then get on a one-item container, and put then get. -/
theorem C7_witness :
    Get (⟨[9], [0], [⟨0, 0⟩]⟩ : SIV Int) ⟨0, 0⟩ = some (Except.ok 9) ∧
    Get (Put (⟨[5], [0], [⟨0, 0⟩]⟩ : SIV Int) 4).2
      (Put (⟨[5], [0], [⟨0, 0⟩]⟩ : SIV Int) 4).1 = some (Except.ok 4) := by
  have h := C7_roundtrip (⟨[5], [0], [⟨0, 0⟩]⟩ : SIV Int)
    ⟨by decide, by decide, by decide, by decide, by decide, by decide, by decide⟩ ⟨0, 0⟩ 9
  exact ⟨h.1 5 (⟨[9], [0], [⟨0, 0⟩]⟩ : SIV Int) (by decide), h.2 4⟩

/-- C8: on a non-empty container `Pop` behaves exactly as resolving the
handle stored at the last live position and removing through it — that
removal succeeds and returns the last stored item — while on an empty
container `Pop` panics (`none`) instead of returning an error value. -/
theorem C8_pop (s : SIV Int) (hwf : WF s) :
    (s.data.length = 0 → Pop s = none) ∧
    (s.data.length ≠ 0 →
      ∃ item s', s.data[s.data.length - 1]? = some item ∧
        Remove s ⟨((s.metaAt (s.data.length - 1)).rid : Int),
                  ((s.metaAt (s.data.length - 1)).vid : Int)⟩ = some (Except.ok item, s') ∧
        Pop s = some (item, s')) := by
  constructor
  · intro hz
    unfold Pop
    rw [if_pos hz]
  · exact Pop_spec s hwf

/-- C8 witness: popping the empty container panics; popping a one-item
container removes that item. -/
theorem C8_witness :
    Pop (Siv.empty : SIV Int) = none ∧
    Pop (⟨[5], [0], [⟨0, 0⟩]⟩ : SIV Int) = some (5, ⟨[], [0], [⟨0, 1⟩]⟩) := by
  constructor
  · exact (C8_pop Siv.empty
      ⟨by decide, by decide, by decide, by decide, by decide, by decide, by decide⟩).1 rfl
  · decide

/-- C9, counterexample to the claim as stated: in the spec scenario the
handle returned for 40 carries generation 2 while h2 carries generation 0,
so the new generation is two greater, not one greater as claimed (the slot
is bumped once when vacated and once more when reused; the repository's own
test asserts `h4.vid == 2`). -/
theorem C9_counterexample :
    c9r2.1.vid = 0 ∧ c9r4.1.vid = 2 ∧ c9r4.1.vid ≠ c9r2.1.vid + 1 := by
  decide

/-- C9 (amended): the scenario behaves as claimed except that h4's
generation is two greater than h2's: storage goes [10,20,30], Remove(h2)
returns 20 leaving [10,30], Insert 40 gives h4 with generation h2's plus two
and storage [10,30,40], Get(h3) returns 30, and Remove(h1) returns 10
leaving [40,30]. -/
theorem C9_amended :
    c9r3.2.data = [10, 20, 30] ∧
    c9rm2 = some (Except.ok 20, stOf c9rm2) ∧
    (stOf c9rm2).data = [10, 30] ∧
    c9r4.1.vid = c9r2.1.vid + 2 ∧
    c9r4.2.data = [10, 30, 40] ∧
    Get c9r4.2 c9r3.1 = some (Except.ok 30) ∧
    c9rm1 = some (Except.ok 10, stOf c9rm1) ∧
    (stOf c9rm1).data = [40, 30] := by
  decide

/-- C10: in every state reachable from the empty container a slot is freed
(at or past the live length) exactly when its generation is odd; every
handle `Put` returns carries an even, non-negative generation (as does every
handle issued during a run); and when `findID` accepts an even-generation
handle the resolved position lies strictly inside the live region, so `Get`,
`Set` and `Remove` perform no out-of-bounds access (never panic). -/
theorem C10_parity_safety :
    (∀ ops : List (Op Int), WF (applyAll Siv.empty ops)) ∧
    (∀ ops : List (Op Int), ∀ p, p < (applyAll (Siv.empty : SIV Int) ops).meta.length →
      (((applyAll (Siv.empty : SIV Int) ops).metaAt p).vid % 2 = 1 ↔
        (applyAll (Siv.empty : SIV Int) ops).data.length ≤ p)) ∧
    (∀ (s : SIV Int) (x : Int), WF s →
      (Put s x).1.vid.toNat % 2 = 0 ∧ 0 ≤ (Put s x).1.vid) ∧
    (∀ (ops : List (Op Int)) (h : Handle), h ∈ issuedFrom (Siv.empty : SIV Int) ops →
      h.vid.toNat % 2 = 0 ∧ 0 ≤ h.vid) ∧
    (∀ (s : SIV Int) (h : Handle) (id : Nat), WF s → h.vid % 2 = 0 →
      findID s h = some (Except.ok id) →
      id < s.data.length ∧
      Get s h ≠ none ∧ (∀ v, Set s h v ≠ none) ∧ Remove s h ≠ none) := by
  refine ⟨?_, ?_, ?_, ?_, ?_⟩
  · intro ops
    exact (applyAll_wf_gen ops Siv.empty WF_empty).1
  · intro ops
    exact (applyAll_wf_gen ops (Siv.empty : SIV Int) WF_empty).1.parity
  · intro s x hwf
    obtain ⟨_, _, _, _, _, heven, hv0, _, _⟩ := Put_gen s x hwf
    exact ⟨heven, hv0⟩
  · intro ops h hmem
    obtain ⟨_, _, _, hv0, heven⟩ := issued_facts ops (Siv.empty : SIV Int) WF_empty h hmem
    exact ⟨heven, hv0⟩
  · intro s h id hwf heven hfind
    have hlive : id < s.data.length := findID_ok_live s hwf h id hfind heven
    obtain ⟨w, hw⟩ : ∃ w, s.data[id]? = some w := ⟨_, List.getElem?_eq_getElem hlive⟩
    obtain ⟨s₂, hrem, _⟩ := Remove_ok_spec s hwf h id w hfind hw
    refine ⟨hlive, ?_, ?_, ?_⟩
    · rw [Get_ok s h id w hfind hw]
      simp
    · intro v
      rw [Set_ok s h v id w hfind hw]
      simp
    · rw [hrem]
      simp

/-- C10 witness: the safety consequence at a concrete state and handle. -/
theorem C10_witness :
    WF (applyAll (Siv.empty : SIV Int) [Op.put 5, Op.put 6, Op.remove ⟨0, 0⟩]) ∧
    (0 : Nat) < (⟨[5], [0], [⟨0, 0⟩]⟩ : SIV Int).data.length ∧
    Get (⟨[5], [0], [⟨0, 0⟩]⟩ : SIV Int) ⟨0, 0⟩ ≠ none := by
  have hwf : WF (⟨[5], [0], [⟨0, 0⟩]⟩ : SIV Int) :=
    ⟨by decide, by decide, by decide, by decide, by decide, by decide, by decide⟩
  have h5 := C10_parity_safety.2.2.2.2 (⟨[5], [0], [⟨0, 0⟩]⟩ : SIV Int) ⟨0, 0⟩ 0
    hwf (by decide) (by decide)
  exact ⟨C10_parity_safety.1 [Op.put 5, Op.put 6, Op.remove ⟨0, 0⟩], h5.1, h5.2.1⟩

end Siv
